import Mathlib

/-!
Shallow embedding of the incremental fetch-and-cache engine of
fetch_commits.py (ton-leaderboard).

Network interaction is modelled by oracles: each call site is given the
sequence of responses the remote side would produce for its successive
requests.  Python dicts that carry JSON data are modelled by structures
with Option fields (a missing key is none), Python sets by lists of keys
with membership, Python dicts used as key-value maps by association lists.
-/

namespace TonLB

/-! ### String helpers: the substring test used on throttle messages -/

/-- Boolean prefix test on character lists. -/
def hasPre : List Char → List Char → Bool
  | [], _ => true
  | _ :: _, [] => false
  | a :: as, b :: bs => a = b && hasPre as bs

/-- Boolean substring test: does pat occur inside s (as a contiguous run)? -/
def hasSub (pat : List Char) : List Char → Bool
  | [] => hasPre pat []
  | b :: bs => hasPre pat (b :: bs) || hasSub pat bs

/-- Python `pat in s` on strings. -/
def strHas (s pat : String) : Bool := hasSub pat.data s.data

/-- Python `str.lower()` restricted to ASCII, as used on ASCII API messages. -/
def lowerStr (s : String) : String := String.mk (s.data.map Char.toLower)

/-! ### Rate-limited transport: safe_get (fetch_commits.py lines 35-58)

A response is modelled by its status, whether its Content-Type starts
with application/json, the `message` field of its JSON body (none when
absent or unparsable), and the parsed Retry-After header (none when the
header is absent). -/

structure Resp where
  status : Nat
  ctJson : Bool
  message : Option String
  retryAfter : Option Nat
  deriving Repr, DecidableEq

/-- The message string safe_get extracts from a throttle response:
json message lowercased when the body is json, otherwise the empty string. -/
def respMsg (r : Resp) : String :=
  if r.ctJson then lowerStr (r.message.getD "") else ""

/-- Outcome of safe_get on a finite oracle of responses: a returned
response, a raised RuntimeError, or retrying past the supplied responses
(the model of the unbounded retry loop).  Each constructor records the
sleep durations performed, in order. -/
inductive GetRes where
  | ok (r : Resp) (sleeps : List Nat)
  | raised (msg : String) (sleeps : List Nat)
  | spin (sleeps : List Nat)
  deriving Repr, DecidableEq

/-- Record one sleep in front of an outcome. -/
def addSleep (t : Nat) : GetRes → GetRes
  | .ok r s => .ok r (t :: s)
  | .raised m s => .raised m (t :: s)
  | .spin s => .spin (t :: s)

/-- safe_get: retry loop over the oracle of successive responses to the
identical request.  429: sleep Retry-After (else current backoff), double
the backoff capped at 60, retry.  403 whose json message contains
"secondary rate limit": sleep likewise (backoff unchanged), retry.  Any
other 403: raise.  Everything else is returned to the caller as-is. -/
def safe_get (backoff : Nat) : List Resp → GetRes
  | [] => .spin []
  | r :: rest =>
    if r.status = 429 ∨ r.status = 403 then
      let msg := respMsg r
      if r.status = 403 ∧ strHas msg "secondary rate limit" then
        addSleep (r.retryAfter.getD backoff) (safe_get backoff rest)
      else if r.status = 403 then
        .raised (if msg = "" then "token lacks permission" else msg) []
      else
        addSleep (r.retryAfter.getD backoff) (safe_get (min (backoff * 2) 60) rest)
    else .ok r []

/-! ### Feeds: resumable paginator plus deduplication

fetch_commits (lines 174-222) and fetch_items (lines 226-270).  The
per-repository cursor dict st is modelled by RepoState (a missing key is
none).  A page request is modelled by what safe_get hands back for it:
either a raised error (the 403 RuntimeError) or the decoded json body,
which is a json array of items on success and a json object (message,
documentation_url, ...) on a non-success response such as 404. -/

structure RepoState where
  cPage : Option Nat
  cSince : Option String
  iPage : Option Nat
  iSince : Option String
  deriving Repr, DecidableEq

/-- The st dict of a repository not yet in the cache (setdefault {}). -/
def emptyState : RepoState := ⟨none, none, none, none⟩

/-- A decoded json response body: an array of items, or an object. -/
inductive Body (α : Type) where
  | arr (items : List α)
  | obj (fields : List (String × String))
  deriving Repr, DecidableEq

/-- What one page request delivers: Except.error models the RuntimeError
raised by safe_get on a non-retryable 403. -/
abbrev PageResp (α : Type) := Except String (Body α)

/-- How a feed loop ended: a falsy (empty) body broke the loop, the
oracle ran out while the loop still wanted more pages (the model of an
interrupted run), or a Python exception was raised. -/
inductive FeedStop where
  | emptyPage
  | interrupted
  | raised (msg : String)
  deriving Repr, DecidableEq

/-- base = f-string of owner and name, line 176. -/
def repoBase (repo : String) : String := "https://github.com/" ++ repo

/-- Decidable equality for Except, needed to decide concrete feed runs. -/
def exceptDecEq {ε α : Type} [DecidableEq ε] [DecidableEq α] :
    DecidableEq (Except ε α) := fun a b =>
  match a, b with
  | .error e, .error f =>
    if h : e = f then isTrue (by rw [h]) else isFalse (fun hc => by cases hc; exact h rfl)
  | .error _, .ok _ => isFalse (fun hc => by cases hc)
  | .ok _, .error _ => isFalse (fun hc => by cases hc)
  | .ok x, .ok y =>
    if h : x = y then isTrue (by rw [h]) else isFalse (fun hc => by cases hc; exact h rfl)

instance {ε α : Type} [DecidableEq ε] [DecidableEq α] : DecidableEq (Except ε α) :=
  exceptDecEq

/-- One raw commit list item, together with the body the per-commit
detail call would return for it: ok files is the touched-file name list
extracted from it, error the RuntimeError the detail call would raise.
authorLogin is none when the author object or its login is absent or
null; commitName none when the commit author name key is absent. -/
structure RawCommit where
  sha : Option String
  authorLogin : Option String
  commitName : Option String
  commitDate : Option String
  det : Except String (List String)
  deriving Repr, DecidableEq

/-- author = (c author login) or commit author name defaulting "unknown",
line 204-205: a missing or empty login falls back to the name. -/
def commitAuthor (c : RawCommit) : String :=
  let login := c.authorLogin.getD ""
  if login = "" then c.commitName.getD "unknown" else login

/-- One emitted commit activity record (lines 206-214). -/
structure CommitRec where
  sha : String
  author : String
  url : String
  repo : String
  date : Option String
  fileNames : List String
  isOfficial : Bool
  deriving Repr, DecidableEq

/-- The body of `for c in data` on one commits page (lines 194-216): skip
items with falsy or already-seen sha; otherwise run the detail call (its
error aborts the loop, keeping the yields made so far), add the sha to
seen, and yield (author, record).  Returns (yields, final seen, raised). -/
def commitsPage (repo : String) (isOff : Bool) :
    List RawCommit → List String → List (String × CommitRec) × List String × Option String
  | [], seen => ([], seen, none)
  | c :: cs, seen =>
    let sha := c.sha.getD ""
    if sha = "" ∨ sha ∈ seen then commitsPage repo isOff cs seen
    else
      match c.det with
      | .error e => ([], seen, some e)
      | .ok files =>
        let r : CommitRec :=
          { sha := sha
            author := commitAuthor c
            url := repoBase repo ++ "/commit/" ++ sha
            repo := repoBase repo
            date := c.commitDate
            fileNames := files
            isOfficial := isOff }
        let rest := commitsPage repo isOff cs (sha :: seen)
        ((commitAuthor c, r) :: rest.1, rest.2.1, rest.2.2)

/-- The `while True` page loop of fetch_commits (lines 181-219) over the
oracle of successive page responses.  `if not data: break` fires exactly
on a falsy body (empty array or empty object).  A nonempty object body
reaches `for c in data`, which iterates the object keys (strings), and
`c.get` on a string raises AttributeError at the first key. -/
def commitsPages (repo : String) (isOff : Bool) :
    List (PageResp RawCommit) → List String →
      List (String × CommitRec) × List String × FeedStop
  | [], seen => ([], seen, .interrupted)
  | .error e :: _, seen => ([], seen, .raised e)
  | .ok (.obj []) :: _, seen => ([], seen, .emptyPage)
  | .ok (.obj (_ :: _)) :: _, seen => ([], seen, .raised "AttributeError")
  | .ok (.arr []) :: _, seen => ([], seen, .emptyPage)
  | .ok (.arr (c :: cs)) :: rest, seen =>
    let pg := commitsPage repo isOff (c :: cs) seen
    match pg.2.2 with
    | some e => (pg.1, pg.2.1, .raised e)
    | none =>
      let r2 := commitsPages repo isOff rest pg.2.1
      (pg.1 ++ r2.1, r2.2.1, r2.2.2)

/-- fetch_commits (lines 174-222): run the page loop; only when the loop
breaks on an empty page do the two trailing assignments
st c_page = 1, st c_since = utc_now() execute.  On an exception or an
interruption st is untouched. -/
def fetch_commits (repo : String) (isOff : Bool) (st : RepoState) (now : String)
    (pages : List (PageResp RawCommit)) (seen : List String) :
    List (String × CommitRec) × List String × RepoState × FeedStop :=
  let r := commitsPages repo isOff pages seen
  match r.2.2 with
  | .emptyPage => (r.1, r.2.1, { st with cPage := some 1, cSince := some now }, .emptyPage)
  | s => (r.1, r.2.1, st, s)

/-- One raw issue or pull-request list item.  userLogin is none when the
user object or its login key is absent; hasPR models the presence of the
pull_request marker key. -/
structure RawIssue where
  userLogin : Option String
  number : Option Nat
  title : Option String
  htmlUrl : Option String
  state : Option String
  createdAt : Option String
  hasPR : Bool
  deriving Repr, DecidableEq

/-- One emitted issue or pull-request activity record (lines 254-263). -/
structure IssueRec where
  number : Option Nat
  title : Option String
  url : Option String
  repo : String
  state : Option String
  createdAt : Option String
  isOfficial : Bool
  type : String
  deriving Repr, DecidableEq

/-- Python str() of an optional number, as interpolated into the key. -/
def numKey : Option Nat → String
  | some k => toString k
  | none => "None"

/-- key = f-string repo#number, line 250. -/
def issueKey (repo : String) (n : Option Nat) : String := repo ++ "#" ++ numKey n

/-- The body of `for it in data` on one issues page (lines 246-264): skip
items with falsy author login (before any key check or insertion), skip
already-seen keys, otherwise add the key to seen and yield. -/
def itemsPage (repo : String) (isOff : Bool) :
    List RawIssue → List String → List (String × IssueRec) × List String
  | [], seen => ([], seen)
  | it :: its, seen =>
    let author := it.userLogin.getD ""
    if author = "" then itemsPage repo isOff its seen
    else
      let key := issueKey repo it.number
      if key ∈ seen then itemsPage repo isOff its seen
      else
        let r : IssueRec :=
          { number := it.number
            title := it.title
            url := it.htmlUrl
            repo := repoBase repo
            state := it.state
            createdAt := it.createdAt
            isOfficial := isOff
            type := if it.hasPR then "pull_request" else "issue" }
        let rest := itemsPage repo isOff its (key :: seen)
        ((author, r) :: rest.1, rest.2)

/-- The page loop of fetch_items (lines 233-267), mirroring
commitsPages: `it.get` on an object key string raises AttributeError. -/
def itemsPages (repo : String) (isOff : Bool) :
    List (PageResp RawIssue) → List String →
      List (String × IssueRec) × List String × FeedStop
  | [], seen => ([], seen, .interrupted)
  | .error e :: _, seen => ([], seen, .raised e)
  | .ok (.obj []) :: _, seen => ([], seen, .emptyPage)
  | .ok (.obj (_ :: _)) :: _, seen => ([], seen, .raised "AttributeError")
  | .ok (.arr []) :: _, seen => ([], seen, .emptyPage)
  | .ok (.arr (it :: its)) :: rest, seen =>
    let pg := itemsPage repo isOff (it :: its) seen
    let r2 := itemsPages repo isOff rest pg.2
    (pg.1 ++ r2.1, r2.2.1, r2.2.2)

/-- fetch_items (lines 226-270): st i_page = 1 and st i_since = now only
after the loop breaks on an empty page. -/
def fetch_items (repo : String) (isOff : Bool) (st : RepoState) (now : String)
    (pages : List (PageResp RawIssue)) (seen : List String) :
    List (String × IssueRec) × List String × RepoState × FeedStop :=
  let r := itemsPages repo isOff pages seen
  match r.2.2 with
  | .emptyPage => (r.1, r.2.1, { st with iPage := some 1, iSince := some now }, .emptyPage)
  | s => (r.1, r.2.1, st, s)

/-- A body that `if not data` treats as falsy: the clean-exhaustion
signal. -/
def emptyBody {α : Type} : PageResp α → Bool
  | .ok (.arr []) => true
  | .ok (.obj []) => true
  | _ => false

/-- A chain of commit feeds (repository, officialness, page oracle)
processed sequentially while threading the seen-sha set, as main does
within a run and as consecutive runs do through the persisted cache. -/
def commitFeeds : List (String × Bool × List (PageResp RawCommit)) → List String →
    List (String × CommitRec) × List String
  | [], seen => ([], seen)
  | f :: fs, seen =>
    let r := commitsPages f.1 f.2.1 f.2.2 seen
    let r2 := commitFeeds fs r.2.1
    (r.1 ++ r2.1, r2.2)

/-- A chain of issue feeds threading the seen-key set; alongside the
yielded records it lists the dedup keys of the yields, in order. -/
def issueFeeds : List (String × Bool × List (PageResp RawIssue)) → List String →
    List String × List String
  | [], seen => ([], seen)
  | f :: fs, seen =>
    let r := itemsPages f.1 f.2.1 f.2.2 seen
    let r2 := issueFeeds fs r.2.1
    (r.1.map (fun p => issueKey f.1 p.2.number) ++ r2.1, r2.2)

/-! ### Repository set resolver (get_repos_list, lines 131-170) -/

/-- ORG_TTL = 7 * 24 * 3600 seconds, line 32. -/
def ORG_TTL : Int := 7 * 24 * 3600

/-- A cached organization snapshot: cache orgs entry
(repos key defaulting [], ts key defaulting 0 are read by expand). -/
structure OrgMeta where
  repos : List String
  ts : Int
  deriving Repr, DecidableEq

/-- Resolution of one bare organization entry (lines 154-160): meta is
the cached snapshot (none when absent), apiResult what
org_repos_from_api would return now.  Yields the repository list used,
whether the expansion call was made, and the snapshot left in the
cache. -/
def orgRepos (meta : Option OrgMeta) (now : Int) (apiResult : List String) :
    List String × Bool × OrgMeta :=
  let repos := (meta.map OrgMeta.repos).getD []
  let ts := (meta.map OrgMeta.ts).getD 0
  if repos = [] ∨ now - ts > ORG_TTL then (apiResult, true, ⟨apiResult, now⟩)
  else (repos, false, ⟨repos, ts⟩)

/-- Python dict assignment d[k] = v on an association list: overwrite the
existing binding in place, else append at the end. -/
def dictInsert (k : String) (v : Bool) : List (String × Bool) → List (String × Bool)
  | [] => [(k, v)]
  | (k2, v2) :: rest =>
    if k2 = k then (k2, v) :: rest else (k2, v2) :: dictInsert k v rest

/-- Python dict lookup d.get(k) on an association list. -/
def dictFind (k : String) : List (String × Bool) → Option Bool
  | [] => none
  | (k2, v) :: rest => if k2 = k then some v else dictFind k rest

/-- Lines 168-170: result = dict of (r, True) over the expanded official
set, then result.update of (r, False) over the expanded unofficial set.
The two arguments are the already-normalized, already-expanded
repository lists. -/
def repos_result (off unoff : List String) : List (String × Bool) :=
  (unoff.map fun r => (r, false)).foldl (fun d kv => dictInsert kv.1 kv.2 d)
    ((off.map fun r => (r, true)).foldl (fun d kv => dictInsert kv.1 kv.2 d) [])

/-! ### Aggregation into the per-contributor accumulator (main) -/

/-- One contributor entry of leaderboard.json (line 288). -/
structure User where
  login : Option String
  profileUrl : Option String
  commits : List CommitRec
  issues : List IssueRec
  pullRequests : List IssueRec
  deriving Repr, DecidableEq

/-- _new_user(), line 288. -/
def newUser : User := ⟨none, none, [], [], []⟩

/-- The users accumulator: an insertion-ordered dict login → user. -/
abbrev Users := List (String × User)

/-- Dict lookup in the users accumulator. -/
def ulookup (a : String) : Users → Option User
  | [] => none
  | (k, u) :: rest => if k = a then some u else ulookup a rest

/-- defaultdict access users[a] followed by an in-place mutation f:
update the existing entry in place, or append a fresh one. -/
def touchUser (a : String) (f : User → User) : Users → Users
  | [] => [(a, f newUser)]
  | (k, u) :: rest =>
    if k = a then (k, f u) :: rest else (k, u) :: touchUser a f rest

/-- One (author, record) pair yielded to main by a feed. -/
inductive Event where
  | commitEv (author : String) (r : CommitRec)
  | issueEv (author : String) (r : IssueRec)
  deriving Repr, DecidableEq

/-- profile_url assigned on every touch (lines 306, 312). -/
def profUrl (a : String) : String := "https://github.com/" ++ a

/-- Lines 303-314: fold one yielded pair into the accumulator — set
login and profile_url, append the record to commits, or to
pull_requests when its type field is pull_request, else to issues. -/
def applyEvent (users : Users) : Event → Users
  | .commitEv a r =>
    touchUser a (fun u =>
      { u with login := some a, profileUrl := some (profUrl a),
               commits := u.commits ++ [r] }) users
  | .issueEv a r =>
    touchUser a (fun u =>
      if r.type = "pull_request" then
        { u with login := some a, profileUrl := some (profUrl a),
                 pullRequests := u.pullRequests ++ [r] }
      else
        { u with login := some a, profileUrl := some (profUrl a),
                 issues := u.issues ++ [r] }) users

/-- The effect of one event on the single user entry of author a. -/
def applyToUser (a : String) (u : User) : Event → User
  | .commitEv b r =>
    if b = a then
      { u with login := some a, profileUrl := some (profUrl a),
               commits := u.commits ++ [r] }
    else u
  | .issueEv b r =>
    if b = a then
      if r.type = "pull_request" then
        { u with login := some a, profileUrl := some (profUrl a),
                 pullRequests := u.pullRequests ++ [r] }
      else
        { u with login := some a, profileUrl := some (profUrl a),
                 issues := u.issues ++ [r] }
    else u

/-- The commit records of the run destined for author a, in yield order. -/
def commitsFor (a : String) : List Event → List CommitRec
  | [] => []
  | .commitEv b r :: es => if b = a then r :: commitsFor a es else commitsFor a es
  | .issueEv _ _ :: es => commitsFor a es

/-- The issue records (type not pull_request) destined for author a. -/
def issuesFor (a : String) : List Event → List IssueRec
  | [] => []
  | .commitEv _ _ :: es => issuesFor a es
  | .issueEv b r :: es =>
    if b = a ∧ r.type ≠ "pull_request" then r :: issuesFor a es else issuesFor a es

/-- The pull-request records destined for author a. -/
def prsFor (a : String) : List Event → List IssueRec
  | [] => []
  | .commitEv _ _ :: es => prsFor a es
  | .issueEv b r :: es =>
    if b = a ∧ r.type = "pull_request" then r :: prsFor a es else prsFor a es

/-! ### main (lines 273-328) -/

/-- The work main schedules for one repository: its two page oracles. -/
structure RepoTask where
  repo : String
  isOff : Bool
  commitPages : List (PageResp RawCommit)
  issuePages : List (PageResp RawIssue)
  deriving Repr, DecidableEq

/-- Association-list assignment for the repo_state dict. -/
def stInsert (k : String) (v : RepoState) :
    List (String × RepoState) → List (String × RepoState)
  | [] => [(k, v)]
  | (k2, v2) :: rest =>
    if k2 = k then (k2, v) :: rest else (k2, v2) :: stInsert k v rest

/-- Association-list lookup for the repo_state dict. -/
def stFind (k : String) : List (String × RepoState) → Option RepoState
  | [] => none
  | (k2, v) :: rest => if k2 = k then some v else stFind k rest

/-- Everything main persists at the end of a successful run: the merged
users accumulator (leaderboard.json) and the cache document. -/
structure MainOut where
  users : Users
  cacheCommits : List String
  cacheIssues : List String
  repoStates : List (String × RepoState)
  deriving Repr, DecidableEq

/-- The per-repository loop of main (lines 299-316).  Any exception
raised inside a feed propagates (there is no try/except in main), so a
raised feed aborts the whole run; an interruption likewise produces no
saved state.  Only when every feed of every repository drains to an
empty page does the fold reach its end. -/
def runTasks (now : String) : List RepoTask → Users → List String → List String →
    List (String × RepoState) → Except String MainOut
  | [], users, seenC, seenI, sts => .ok ⟨users, seenC, seenI, sts⟩
  | t :: ts, users, seenC, seenI, sts =>
    let st0 := (stFind t.repo sts).getD emptyState
    let fc := fetch_commits t.repo t.isOff st0 now t.commitPages seenC
    match fc.2.2.2 with
    | .raised e => .error e
    | .interrupted => .error "interrupted"
    | .emptyPage =>
      let users1 := (fc.1.map fun p => Event.commitEv p.1 p.2).foldl applyEvent users
      let fi := fetch_items t.repo t.isOff fc.2.2.1 now t.issuePages seenI
      match fi.2.2.2 with
      | .raised e => .error e
      | .interrupted => .error "interrupted"
      | .emptyPage =>
        let users2 := (fi.1.map fun p => Event.issueEv p.1 p.2).foldl applyEvent users1
        runTasks now ts users2 fc.2.1 fi.2.1 (stInsert t.repo fi.2.2.1 sts)

/-- main: start from the prior leaderboard users dict and the persisted
cache (seen shas, seen issue keys, repo cursors) and process every
repository; the output and cache documents exist only on success. -/
def mainRun (prev : Users) (tasks : List RepoTask) (seenC seenI : List String)
    (sts : List (String × RepoState)) (now : String) : Except String MainOut :=
  runTasks now tasks prev seenC seenI sts

/-! ### Deduplication invariants -/

/-- The item loop on one commits page: the seen set only grows, every
yield carries a sha that is in the final seen set and was not in the
initial one, and the yielded shas are pairwise distinct. -/
theorem commitsPage_spec (repo : String) (isOff : Bool) :
    ∀ (cs : List RawCommit) (seen : List String),
      (∀ k ∈ seen, k ∈ (commitsPage repo isOff cs seen).2.1) ∧
      (∀ p ∈ (commitsPage repo isOff cs seen).1,
          p.2.sha ∈ (commitsPage repo isOff cs seen).2.1 ∧ p.2.sha ∉ seen) ∧
      ((commitsPage repo isOff cs seen).1.map fun p => p.2.sha).Nodup := by
  intro cs
  induction cs with
  | nil => intro seen; simp [commitsPage]
  | cons c cs ih =>
    intro seen
    by_cases h : (c.sha.getD "") = "" ∨ (c.sha.getD "") ∈ seen
    · simpa [commitsPage, h] using ih seen
    · have h2 : (c.sha.getD "") ∉ seen := fun hh => h (Or.inr hh)
      cases hd : c.det with
      | error e => simp [commitsPage, h, hd]
      | ok files =>
        obtain ⟨ih1, ih2, ih3⟩ := ih ((c.sha.getD "") :: seen)
        simp only [commitsPage, if_neg h, hd]
        refine ⟨?_, ?_, ?_⟩
        · intro k hk
          exact ih1 k (List.mem_cons_of_mem _ hk)
        · intro p hp
          rcases List.mem_cons.mp hp with hp | hp
          · subst hp
            exact ⟨ih1 _ (List.mem_cons_self _ _), h2⟩
          · exact ⟨(ih2 p hp).1, fun hmem => (ih2 p hp).2 (List.mem_cons_of_mem _ hmem)⟩
        · rw [List.map_cons, List.nodup_cons]
          refine ⟨?_, ih3⟩
          intro hmem
          rcases List.mem_map.mp hmem with ⟨p, hp, hsha⟩
          exact (ih2 p hp).2 (by rw [hsha]; exact List.mem_cons_self _ _)

/-- The page loop of the commits feed preserves the page-level dedup
invariants: seen only grows, yields are fresh and recorded, yields are
pairwise distinct. -/
theorem commitsPages_spec (repo : String) (isOff : Bool) :
    ∀ (pages : List (PageResp RawCommit)) (seen : List String),
      (∀ k ∈ seen, k ∈ (commitsPages repo isOff pages seen).2.1) ∧
      (∀ p ∈ (commitsPages repo isOff pages seen).1,
          p.2.sha ∈ (commitsPages repo isOff pages seen).2.1 ∧ p.2.sha ∉ seen) ∧
      ((commitsPages repo isOff pages seen).1.map fun p => p.2.sha).Nodup := by
  intro pages
  induction pages with
  | nil => intro seen; simp [commitsPages]
  | cons pg rest ih =>
    intro seen
    match pg with
    | .error e => simp [commitsPages]
    | .ok (.obj []) => simp [commitsPages]
    | .ok (.obj (kv :: kvs)) => simp [commitsPages]
    | .ok (.arr []) => simp [commitsPages]
    | .ok (.arr (c :: cs)) =>
      obtain ⟨p1, p2, p3⟩ := commitsPage_spec repo isOff (c :: cs) seen
      cases herr : (commitsPage repo isOff (c :: cs) seen).2.2 with
      | some e =>
        simp only [commitsPages, herr]
        exact ⟨p1, p2, p3⟩
      | none =>
        obtain ⟨ih1, ih2, ih3⟩ := ih ((commitsPage repo isOff (c :: cs) seen).2.1)
        simp only [commitsPages, herr]
        refine ⟨?_, ?_, ?_⟩
        · intro k hk
          exact ih1 k (p1 k hk)
        · intro p hp
          rcases List.mem_append.mp hp with hp | hp
          · exact ⟨ih1 _ (p2 p hp).1, (p2 p hp).2⟩
          · exact ⟨(ih2 p hp).1, fun hmem => (ih2 p hp).2 (p1 _ hmem)⟩
        · rw [List.map_append, List.nodup_append]
          refine ⟨p3, ih3, ?_⟩
          intro x hx hx2
          rcases List.mem_map.mp hx with ⟨p, hp, hps⟩
          rcases List.mem_map.mp hx2 with ⟨q, hq, hqs⟩
          exact (hqs ▸ (ih2 q hq).2) (hps ▸ (p2 p hp).1)

/-- Chaining commit feeds (within a run and across runs through the
persisted cache) preserves the dedup invariants. -/
theorem commitFeeds_spec :
    ∀ (fs : List (String × Bool × List (PageResp RawCommit))) (seen : List String),
      (∀ k ∈ seen, k ∈ (commitFeeds fs seen).2) ∧
      (∀ p ∈ (commitFeeds fs seen).1,
          p.2.sha ∈ (commitFeeds fs seen).2 ∧ p.2.sha ∉ seen) ∧
      ((commitFeeds fs seen).1.map fun p => p.2.sha).Nodup := by
  intro fs
  induction fs with
  | nil => intro seen; simp [commitFeeds]
  | cons f fs ih =>
    intro seen
    obtain ⟨p1, p2, p3⟩ := commitsPages_spec f.1 f.2.1 f.2.2 seen
    obtain ⟨ih1, ih2, ih3⟩ := ih ((commitsPages f.1 f.2.1 f.2.2 seen).2.1)
    simp only [commitFeeds]
    refine ⟨?_, ?_, ?_⟩
    · intro k hk
      exact ih1 k (p1 k hk)
    · intro p hp
      rcases List.mem_append.mp hp with hp | hp
      · exact ⟨ih1 _ (p2 p hp).1, (p2 p hp).2⟩
      · exact ⟨(ih2 p hp).1, fun hmem => (ih2 p hp).2 (p1 _ hmem)⟩
    · rw [List.map_append, List.nodup_append]
      refine ⟨p3, ih3, ?_⟩
      intro x hx hx2
      rcases List.mem_map.mp hx with ⟨p, hp, hps⟩
      rcases List.mem_map.mp hx2 with ⟨q, hq, hqs⟩
      exact (hqs ▸ (ih2 q hq).2) (hps ▸ (p2 p hp).1)

/-- The item loop on one issues page: seen only grows, every yield has a
dedup key that lands in the final seen set and was fresh, yields have
pairwise distinct keys. -/
theorem itemsPage_spec (repo : String) (isOff : Bool) :
    ∀ (its : List RawIssue) (seen : List String),
      (∀ k ∈ seen, k ∈ (itemsPage repo isOff its seen).2) ∧
      (∀ p ∈ (itemsPage repo isOff its seen).1,
          issueKey repo p.2.number ∈ (itemsPage repo isOff its seen).2 ∧
          issueKey repo p.2.number ∉ seen) ∧
      ((itemsPage repo isOff its seen).1.map fun p => issueKey repo p.2.number).Nodup := by
  intro its
  induction its with
  | nil => intro seen; simp [itemsPage]
  | cons it its ih =>
    intro seen
    by_cases ha : (it.userLogin.getD "") = ""
    · simpa [itemsPage, ha] using ih seen
    · by_cases hk : issueKey repo it.number ∈ seen
      · simpa [itemsPage, ha, hk] using ih seen
      · obtain ⟨ih1, ih2, ih3⟩ := ih (issueKey repo it.number :: seen)
        simp only [itemsPage, if_neg ha, if_neg hk]
        refine ⟨?_, ?_, ?_⟩
        · intro k hkk
          exact ih1 k (List.mem_cons_of_mem _ hkk)
        · intro p hp
          rcases List.mem_cons.mp hp with hp | hp
          · subst hp
            exact ⟨ih1 _ (List.mem_cons_self _ _), hk⟩
          · exact ⟨(ih2 p hp).1, fun hmem => (ih2 p hp).2 (List.mem_cons_of_mem _ hmem)⟩
        · rw [List.map_cons, List.nodup_cons]
          refine ⟨?_, ih3⟩
          intro hmem
          rcases List.mem_map.mp hmem with ⟨p, hp, hps⟩
          exact (ih2 p hp).2 (by rw [hps]; exact List.mem_cons_self _ _)

/-- The page loop of the issues feed preserves the dedup invariants. -/
theorem itemsPages_spec (repo : String) (isOff : Bool) :
    ∀ (pages : List (PageResp RawIssue)) (seen : List String),
      (∀ k ∈ seen, k ∈ (itemsPages repo isOff pages seen).2.1) ∧
      (∀ p ∈ (itemsPages repo isOff pages seen).1,
          issueKey repo p.2.number ∈ (itemsPages repo isOff pages seen).2.1 ∧
          issueKey repo p.2.number ∉ seen) ∧
      ((itemsPages repo isOff pages seen).1.map fun p => issueKey repo p.2.number).Nodup := by
  intro pages
  induction pages with
  | nil => intro seen; simp [itemsPages]
  | cons pg rest ih =>
    intro seen
    match pg with
    | .error e => simp [itemsPages]
    | .ok (.obj []) => simp [itemsPages]
    | .ok (.obj (kv :: kvs)) => simp [itemsPages]
    | .ok (.arr []) => simp [itemsPages]
    | .ok (.arr (it :: its)) =>
      obtain ⟨p1, p2, p3⟩ := itemsPage_spec repo isOff (it :: its) seen
      obtain ⟨ih1, ih2, ih3⟩ := ih ((itemsPage repo isOff (it :: its) seen).2)
      simp only [itemsPages]
      refine ⟨?_, ?_, ?_⟩
      · intro k hk
        exact ih1 k (p1 k hk)
      · intro p hp
        rcases List.mem_append.mp hp with hp | hp
        · exact ⟨ih1 _ (p2 p hp).1, (p2 p hp).2⟩
        · exact ⟨(ih2 p hp).1, fun hmem => (ih2 p hp).2 (p1 _ hmem)⟩
      · rw [List.map_append, List.nodup_append]
        refine ⟨p3, ih3, ?_⟩
        intro x hx hx2
        rcases List.mem_map.mp hx with ⟨p, hp, hps⟩
        rcases List.mem_map.mp hx2 with ⟨q, hq, hqs⟩
        exact (hqs ▸ (ih2 q hq).2) (hps ▸ (p2 p hp).1)

/-- Chaining issue feeds preserves the dedup invariants on emitted
keys. -/
theorem issueFeeds_spec :
    ∀ (fs : List (String × Bool × List (PageResp RawIssue))) (seen : List String),
      (∀ k ∈ seen, k ∈ (issueFeeds fs seen).2) ∧
      (∀ k ∈ (issueFeeds fs seen).1, k ∈ (issueFeeds fs seen).2 ∧ k ∉ seen) ∧
      (issueFeeds fs seen).1.Nodup := by
  intro fs
  induction fs with
  | nil => intro seen; simp [issueFeeds]
  | cons f fs ih =>
    intro seen
    obtain ⟨p1, p2, p3⟩ := itemsPages_spec f.1 f.2.1 f.2.2 seen
    obtain ⟨ih1, ih2, ih3⟩ := ih ((itemsPages f.1 f.2.1 f.2.2 seen).2.1)
    simp only [issueFeeds]
    refine ⟨?_, ?_, ?_⟩
    · intro k hk
      exact ih1 k (p1 k hk)
    · intro k hkm
      rcases List.mem_append.mp hkm with hkm | hkm
      · rcases List.mem_map.mp hkm with ⟨p, hp, hps⟩
        exact ⟨ih1 _ (hps ▸ (p2 p hp).1), hps ▸ (p2 p hp).2⟩
      · exact ⟨(ih2 k hkm).1, fun hmem => (ih2 k hkm).2 (p1 _ hmem)⟩
    · rw [List.nodup_append]
      refine ⟨p3, ih3, ?_⟩
      intro x hx hx2
      rcases List.mem_map.mp hx with ⟨p, hp, hps⟩
      exact (ih2 x hx2).2 (hps ▸ (p2 p hp).1)

/-! ### Cursor write-back -/

/-- fetch_commits updates the cursor exactly on clean exhaustion. -/
theorem fetch_commits_cursor (repo : String) (isOff : Bool) (st : RepoState) (now : String)
    (pages : List (PageResp RawCommit)) (seen : List String) :
    (fetch_commits repo isOff st now pages seen).2.2.1 =
      (if (fetch_commits repo isOff st now pages seen).2.2.2 = FeedStop.emptyPage
       then { st with cPage := some 1, cSince := some now } else st) := by
  cases h : (commitsPages repo isOff pages seen).2.2 <;> simp [fetch_commits, h]

/-- fetch_items updates the cursor exactly on clean exhaustion. -/
theorem fetch_items_cursor (repo : String) (isOff : Bool) (st : RepoState) (now : String)
    (pages : List (PageResp RawIssue)) (seen : List String) :
    (fetch_items repo isOff st now pages seen).2.2.1 =
      (if (fetch_items repo isOff st now pages seen).2.2.2 = FeedStop.emptyPage
       then { st with iPage := some 1, iSince := some now } else st) := by
  cases h : (itemsPages repo isOff pages seen).2.2 <;> simp [fetch_items, h]

/-- The commits page loop reports clean exhaustion only when some
supplied page response has a falsy body. -/
theorem commitsPages_empty_mem (repo : String) (isOff : Bool) :
    ∀ (pages : List (PageResp RawCommit)) (seen : List String),
      (commitsPages repo isOff pages seen).2.2 = FeedStop.emptyPage →
      ∃ p ∈ pages, emptyBody p = true := by
  intro pages
  induction pages with
  | nil => intro seen h; simp [commitsPages] at h
  | cons pg rest ih =>
    intro seen h
    cases pg with
    | error e => simp [commitsPages] at h
    | ok body =>
      cases body with
      | arr items =>
        cases items with
        | nil => exact ⟨.ok (.arr []), List.mem_cons_self _ _, rfl⟩
        | cons c cs =>
          simp only [commitsPages] at h
          cases herr : (commitsPage repo isOff (c :: cs) seen).2.2 with
          | some e => rw [herr] at h; simp at h
          | none =>
            rw [herr] at h
            obtain ⟨p, hp, hb⟩ := ih _ h
            exact ⟨p, List.mem_cons_of_mem _ hp, hb⟩
      | obj fields =>
        cases fields with
        | nil => exact ⟨.ok (.obj []), List.mem_cons_self _ _, rfl⟩
        | cons kv kvs => simp [commitsPages] at h

/-- The issues page loop reports clean exhaustion only when some
supplied page response has a falsy body. -/
theorem itemsPages_empty_mem (repo : String) (isOff : Bool) :
    ∀ (pages : List (PageResp RawIssue)) (seen : List String),
      (itemsPages repo isOff pages seen).2.2 = FeedStop.emptyPage →
      ∃ p ∈ pages, emptyBody p = true := by
  intro pages
  induction pages with
  | nil => intro seen h; simp [itemsPages] at h
  | cons pg rest ih =>
    intro seen h
    cases pg with
    | error e => simp [itemsPages] at h
    | ok body =>
      cases body with
      | arr items =>
        cases items with
        | nil => exact ⟨.ok (.arr []), List.mem_cons_self _ _, rfl⟩
        | cons it its =>
          simp only [itemsPages] at h
          obtain ⟨p, hp, hb⟩ := ih _ h
          exact ⟨p, List.mem_cons_of_mem _ hp, hb⟩
      | obj fields =>
        cases fields with
        | nil => exact ⟨.ok (.obj []), List.mem_cons_self _ _, rfl⟩
        | cons kv kvs => simp [itemsPages] at h

/-! ### Aggregation lemmas -/

/-- Looking up the touched key yields the mutated (or fresh) user. -/
theorem ulookup_touchUser_self (a : String) (f : User → User) :
    ∀ us : Users, ulookup a (touchUser a f us) = some (f ((ulookup a us).getD newUser)) := by
  intro us
  induction us with
  | nil => simp [touchUser, ulookup]
  | cons p rest ih =>
    obtain ⟨k, u⟩ := p
    by_cases h : k = a
    · subst h; simp [touchUser, ulookup]
    · simp [touchUser, ulookup, h, ih]

/-- Touching another key leaves a lookup unchanged. -/
theorem ulookup_touchUser_other (a b : String) (f : User → User) (hba : b ≠ a) :
    ∀ us : Users, ulookup a (touchUser b f us) = ulookup a us := by
  intro us
  induction us with
  | nil => simp [touchUser, ulookup, hba]
  | cons p rest ih =>
    obtain ⟨k, u⟩ := p
    by_cases h : k = b
    · subst h; simp [touchUser, ulookup, hba]
    · simp [touchUser, ulookup, h, ih]

/-- One yielded pair transforms the looked-up user by applyToUser. -/
theorem ulookup_applyEvent (a : String) (u : User) (e : Event) :
    ∀ us : Users, ulookup a us = some u →
      ulookup a (applyEvent us e) = some (applyToUser a u e) := by
  intro us hu
  cases e with
  | commitEv b r =>
    by_cases h : b = a
    · subst h; simp [applyEvent, ulookup_touchUser_self, hu, applyToUser]
    · simp [applyEvent, ulookup_touchUser_other a b _ h, hu, applyToUser, h]
  | issueEv b r =>
    by_cases h : b = a
    · subst h; simp [applyEvent, ulookup_touchUser_self, hu, applyToUser]
    · simp [applyEvent, ulookup_touchUser_other a b _ h, hu, applyToUser, h]

/-- Folding a whole run of yielded pairs transforms the looked-up user
by folding their individual effects. -/
theorem ulookup_foldl_applyEvent (a : String) :
    ∀ (es : List Event) (us : Users) (u : User), ulookup a us = some u →
      ulookup a (es.foldl applyEvent us) = some (es.foldl (applyToUser a) u) := by
  intro es
  induction es with
  | nil => intro us u hu; simpa using hu
  | cons e es ih =>
    intro us u hu
    simp only [List.foldl_cons]
    exact ih _ _ (ulookup_applyEvent a u e us hu)

/-- The commit list after a run is the prior list plus the commit
records destined for this contributor, in order. -/
theorem foldl_applyToUser_commits (a : String) :
    ∀ (es : List Event) (u : User),
      (es.foldl (applyToUser a) u).commits = u.commits ++ commitsFor a es := by
  intro es
  induction es with
  | nil => intro u; simp [commitsFor]
  | cons e es ih =>
    intro u
    cases e with
    | commitEv b r =>
      by_cases h : b = a
      · subst h; simp [applyToUser, commitsFor, ih, List.append_assoc]
      · simp [applyToUser, commitsFor, h, ih]
    | issueEv b r =>
      by_cases h : b = a
      · subst h
        by_cases ht : r.type = "pull_request"
        · simp [applyToUser, commitsFor, ht, ih]
        · simp [applyToUser, commitsFor, ht, ih]
      · simp [applyToUser, commitsFor, h, ih]

/-- The issue list after a run is the prior list plus this
contributor's non-pull-request records. -/
theorem foldl_applyToUser_issues (a : String) :
    ∀ (es : List Event) (u : User),
      (es.foldl (applyToUser a) u).issues = u.issues ++ issuesFor a es := by
  intro es
  induction es with
  | nil => intro u; simp [issuesFor]
  | cons e es ih =>
    intro u
    cases e with
    | commitEv b r =>
      by_cases h : b = a
      · subst h; simp [applyToUser, issuesFor, ih]
      · simp [applyToUser, issuesFor, h, ih]
    | issueEv b r =>
      by_cases h : b = a
      · subst h
        by_cases ht : r.type = "pull_request"
        · simp [applyToUser, issuesFor, ht, ih]
        · simp [applyToUser, issuesFor, ht, ih, List.append_assoc]
      · simp [applyToUser, issuesFor, h, ih]

/-- The pull-request list after a run is the prior list plus this
contributor's pull-request records. -/
theorem foldl_applyToUser_prs (a : String) :
    ∀ (es : List Event) (u : User),
      (es.foldl (applyToUser a) u).pullRequests = u.pullRequests ++ prsFor a es := by
  intro es
  induction es with
  | nil => intro u; simp [prsFor]
  | cons e es ih =>
    intro u
    cases e with
    | commitEv b r =>
      by_cases h : b = a
      · subst h; simp [applyToUser, prsFor, ih]
      · simp [applyToUser, prsFor, h, ih]
    | issueEv b r =>
      by_cases h : b = a
      · subst h
        by_cases ht : r.type = "pull_request"
        · simp [applyToUser, prsFor, ht, ih, List.append_assoc]
        · simp [applyToUser, prsFor, ht, ih]
      · simp [applyToUser, prsFor, h, ih]

/-! ### Dict lemmas for the resolver -/

/-- Inserting a key makes it look up to the inserted value. -/
theorem dictFind_dictInsert_self (k : String) (v : Bool) :
    ∀ d, dictFind k (dictInsert k v d) = some v := by
  intro d
  induction d with
  | nil => simp [dictInsert, dictFind]
  | cons p rest ih =>
    obtain ⟨k2, v2⟩ := p
    by_cases h : k2 = k
    · subst h; simp [dictInsert, dictFind]
    · simp [dictInsert, dictFind, h, ih]

/-- Inserting another key leaves a lookup unchanged. -/
theorem dictFind_dictInsert_other (k j : String) (v : Bool) (hjk : j ≠ k) :
    ∀ d, dictFind k (dictInsert j v d) = dictFind k d := by
  intro d
  induction d with
  | nil => simp [dictInsert, dictFind, hjk]
  | cons p rest ih =>
    obtain ⟨k2, v2⟩ := p
    by_cases h : k2 = j
    · subst h; simp [dictInsert, dictFind, hjk]
    · by_cases h2 : k2 = k
      · subst h2; simp [dictInsert, dictFind, h]
      · simp [dictInsert, dictFind, h, h2, ih]

/-- Folding a list of all-false insertions pins every inserted key (and
every key already pinned to false) to false. -/
theorem foldl_dictInsert_false (r : String) :
    ∀ (ps : List (String × Bool)) (d : List (String × Bool)),
      (∀ p ∈ ps, p.2 = false) →
      (r ∈ ps.map Prod.fst ∨ dictFind r d = some false) →
      dictFind r (ps.foldl (fun d kv => dictInsert kv.1 kv.2 d) d) = some false := by
  intro ps
  induction ps with
  | nil =>
    intro d _ h
    rcases h with h | h
    · simp at h
    · simpa using h
  | cons p ps ih =>
    intro d hall h
    obtain ⟨k, v⟩ := p
    have hv : v = false := hall (k, v) (List.mem_cons_self _ _)
    subst hv
    simp only [List.foldl_cons]
    apply ih _ (fun q hq => hall q (List.mem_cons_of_mem _ hq))
    by_cases hrk : k = r
    · subst hrk
      exact Or.inr (dictFind_dictInsert_self k false d)
    · rcases h with h | h
      · rw [List.map_cons] at h
        rcases List.mem_cons.mp h with h | h
        · exact absurd h.symm hrk
        · exact Or.inl h
      · exact Or.inr ((dictFind_dictInsert_other r k false hrk d).trans h)

/-- The wrapper does not change how the commits loop stopped. -/
theorem fetch_commits_stop (repo : String) (isOff : Bool) (st : RepoState) (now : String)
    (pages : List (PageResp RawCommit)) (seen : List String) :
    (fetch_commits repo isOff st now pages seen).2.2.2 =
      (commitsPages repo isOff pages seen).2.2 := by
  cases h : (commitsPages repo isOff pages seen).2.2 <;> simp [fetch_commits, h]

/-- The wrapper does not change how the issues loop stopped. -/
theorem fetch_items_stop (repo : String) (isOff : Bool) (st : RepoState) (now : String)
    (pages : List (PageResp RawIssue)) (seen : List String) :
    (fetch_items repo isOff st now pages seen).2.2.2 =
      (itemsPages repo isOff pages seen).2.2 := by
  cases h : (itemsPages repo isOff pages seen).2.2 <;> simp [fetch_items, h]

/-! ### Claims -/

/-- C1: for every commit hash and every issue key, the dedup step adds
the key to the seen set before yielding, so over any chain of feeds —
within one run and across runs that start from the persisted seen sets —
the emitted commit shas are pairwise distinct and disjoint from the
initial seen set, and likewise the emitted issue keys. -/
theorem claim_C1_at_most_once
    (cfeeds : List (String × Bool × List (PageResp RawCommit)))
    (ifeeds : List (String × Bool × List (PageResp RawIssue)))
    (seenC seenI : List String) :
    ((commitFeeds cfeeds seenC).1.map fun p => p.2.sha).Nodup ∧
    (∀ p ∈ (commitFeeds cfeeds seenC).1, p.2.sha ∉ seenC) ∧
    (issueFeeds ifeeds seenI).1.Nodup ∧
    (∀ k ∈ (issueFeeds ifeeds seenI).1, k ∉ seenI) := by
  obtain ⟨c1, c2, c3⟩ := commitFeeds_spec cfeeds seenC
  obtain ⟨i1, i2, i3⟩ := issueFeeds_spec ifeeds seenI
  exact ⟨c3, fun p hp => (c2 p hp).2, i3, fun k hk => (i2 k hk).2⟩

/-- C2 counterexample: a repository listed in both configured sets is
mapped to False (unofficial), because the dict update of the unofficial
comprehension overwrites the official marking; the claim says it should
be marked official. -/
theorem claim_C2_counterexample :
    dictFind "ton/sdk" (repos_result ["ton/sdk"] ["ton/sdk"]) = some false := by decide

/-- C2 amended: for every repository in the expanded unofficial set —
including any that is also in the expanded official set — the resolver
maps it to False: the unofficial marking wins, not the official one. -/
theorem claim_C2_amended (off unoff : List String) (r : String) (h : r ∈ unoff) :
    dictFind r (repos_result off unoff) = some false := by
  rw [repos_result]
  apply foldl_dictInsert_false
  · intro p hp
    rcases List.mem_map.mp hp with ⟨x, _, hpx⟩
    rw [← hpx]
  · exact Or.inl (List.mem_map.mpr ⟨(r, false), List.mem_map.mpr ⟨r, h, rfl⟩, rfl⟩)

/-- C2 amended witness at a concrete configuration. -/
theorem claim_C2_amended_witness :
    dictFind "ton/labs" (repos_result ["ton/core"] ["ton/labs"]) = some false :=
  claim_C2_amended ["ton/core"] ["ton/labs"] "ton/labs" (by decide)

/-- C3 counterexample: a single repository whose first commits page
request raises the non-retryable 403 makes the whole run return that
error: no cache document and no output document is produced, where the
claim says the run always completes and writes both. -/
theorem claim_C3_counterexample :
    mainRun [] [⟨"ton/sdk", true, [.error "403 Forbidden"], []⟩] [] [] [] "T1"
      = .error "403 Forbidden" := by decide

/-- C3 amended: main has no exception handler, so a non-retryable
permission error raised inside a commits feed propagates out of the
per-repository loop: the run aborts with that error and neither the
cache nor the output document is written. -/
theorem claim_C3_amended (now : String) (t : RepoTask) (ts : List RepoTask)
    (users : Users) (seenC seenI : List String) (sts : List (String × RepoState)) (e : String)
    (h : (commitsPages t.repo t.isOff t.commitPages seenC).2.2 = FeedStop.raised e) :
    runTasks now (t :: ts) users seenC seenI sts = .error e := by
  simp only [runTasks, fetch_commits, h]

/-- C3 amended witness at a concrete run. -/
theorem claim_C3_amended_witness :
    runTasks "T1" [⟨"ton/sdk", true, [.error "403 Forbidden"], []⟩] [] [] [] []
      = .error "403 Forbidden" :=
  claim_C3_amended "T1" ⟨"ton/sdk", true, [.error "403 Forbidden"], []⟩ [] [] [] [] []
    "403 Forbidden" (by decide)

/-- C4 counterexample: a 403 whose json message is the primary rate
limit notice (no "secondary rate limit" substring) is raised
immediately even though a success follows, where the claim says every
rate-limit-indicating 403 must be retried and never surfaced. -/
theorem claim_C4_counterexample :
    safe_get 1 [⟨403, true, some "API rate limit exceeded", none⟩, ⟨200, true, none, none⟩]
      = .raised "api rate limit exceeded" [] := by decide

/-- C4 amended: 429 always sleeps (Retry-After, else current backoff)
and retries with the backoff doubled and capped at 60; a 403 sleeps and
retries (backoff unchanged) only when its json message contains the
exact substring "secondary rate limit"; every other 403 — including a
primary-rate-limit message — raises; every other response is returned
to the caller as-is. -/
theorem claim_C4_amended (backoff : Nat) (r : Resp) (rest : List Resp) :
    safe_get backoff (r :: rest) =
      (if r.status = 429 then
        addSleep (r.retryAfter.getD backoff) (safe_get (min (backoff * 2) 60) rest)
      else if r.status = 403 ∧ strHas (respMsg r) "secondary rate limit" = true then
        addSleep (r.retryAfter.getD backoff) (safe_get backoff rest)
      else if r.status = 403 then
        .raised (if respMsg r = "" then "token lacks permission" else respMsg r) []
      else .ok r []) := by
  by_cases h429 : r.status = 429
  · have h403 : ¬ r.status = 403 := by omega
    simp [safe_get, h429, h403]
  · by_cases h403 : r.status = 403
    · by_cases hs : strHas (respMsg r) "secondary rate limit" = true
      · simp [safe_get, h429, h403, hs]
      · simp [safe_get, h429, h403, hs]
    · simp [safe_get, h429, h403]

/-- C4 amended witness: a plain 500 is returned to the caller as-is. -/
theorem claim_C4_amended_witness :
    safe_get 1 [⟨500, false, none, none⟩] = .ok ⟨500, false, none, none⟩ [] := by
  have h := claim_C4_amended 1 ⟨500, false, none, none⟩ []
  simpa using h

/-- C5 counterexample: a not-found response (json object body) does not
end the commits loop quietly: it raises AttributeError, a hard error
that aborts the run; only the cursor part of the claim holds (st is
unchanged). -/
theorem claim_C5_counterexample :
    fetch_commits "ton/sdk" true ⟨some 3, some "2024-01-01T00:00:00Z", none, none⟩ "T1"
        [.ok (.obj [("message", "Not Found")])] []
      = ([], [], ⟨some 3, some "2024-01-01T00:00:00Z", none, none⟩,
          .raised "AttributeError") := by decide

/-- C5 amended: the feed loops never test the response status; a
non-success response with a nonempty json object body reaches the item
loop and raises AttributeError — a hard error that aborts the run, not
a quiet early stop — while the cursor is indeed left not advanced. -/
theorem claim_C5_amended (repo : String) (isOff : Bool) (st ist : RepoState) (now : String)
    (kv : String × String) (kvs : List (String × String)) (seen iseen : List String)
    (crest : List (PageResp RawCommit)) (irest : List (PageResp RawIssue)) :
    fetch_commits repo isOff st now (.ok (.obj (kv :: kvs)) :: crest) seen
      = ([], seen, st, .raised "AttributeError") ∧
    fetch_items repo isOff ist now (.ok (.obj (kv :: kvs)) :: irest) iseen
      = ([], iseen, ist, .raised "AttributeError") := by
  constructor
  · simp [fetch_commits, commitsPages]
  · simp [fetch_items, itemsPages]

/-- C6 counterexample: a run that starts at page 1, drains page 1 and
is interrupted while attempting page 2 leaves c_page at 1 — the value
from the start of the run — not at the last attempted value 2 as the
claim states (the cursor dict is only ever written after an empty
page). -/
theorem claim_C6_counterexample :
    (fetch_commits "ton/sdk" true ⟨some 1, some "2024-01-01T00:00:00Z", none, none⟩ "T1"
        [.ok (.arr [⟨some "s1", some "alice", none, some "2024-02-02", .ok ["a.py"]⟩])]
        []).2.2
      = (⟨some 1, some "2024-01-01T00:00:00Z", none, none⟩, .interrupted) ∧
    (some 1 : Option Nat) ≠ some 2 := by decide

/-- C6 amended: if a feed does not drain to an empty page (interrupted
or raised), the persisted cursor is left entirely unchanged from its
start-of-run value — page is not advanced to the last attempted page,
and since is untouched — so a later run resumes from the start-of-run
page. -/
theorem claim_C6_amended (repo : String) (isOff : Bool) (st ist : RepoState) (now : String)
    (cpages : List (PageResp RawCommit)) (ipages : List (PageResp RawIssue))
    (seenC seenI : List String)
    (hc : (fetch_commits repo isOff st now cpages seenC).2.2.2 ≠ FeedStop.emptyPage)
    (hi : (fetch_items repo isOff ist now ipages seenI).2.2.2 ≠ FeedStop.emptyPage) :
    (fetch_commits repo isOff st now cpages seenC).2.2.1 = st ∧
    (fetch_items repo isOff ist now ipages seenI).2.2.1 = ist := by
  constructor
  · rw [fetch_commits_cursor, if_neg hc]
  · rw [fetch_items_cursor, if_neg hi]

/-- C6 amended witness: immediately interrupted feeds keep their
cursors. -/
theorem claim_C6_amended_witness :
    (fetch_commits "ton/sdk" true ⟨some 5, some "T0", none, none⟩ "T1" [] []).2.2.1
        = ⟨some 5, some "T0", none, none⟩ ∧
    (fetch_items "ton/sdk" true ⟨none, none, some 4, some "T0"⟩ "T1" [] []).2.2.1
        = ⟨none, none, some 4, some "T0"⟩ :=
  claim_C6_amended "ton/sdk" true ⟨some 5, some "T0", none, none⟩
    ⟨none, none, some 4, some "T0"⟩ "T1" [] [] [] [] (by decide) (by decide)

/-- C7: a feed resets its cursor (page to 1, since to now) exactly when
its loop stopped on an empty page, and a stop on an empty page can only
happen when one of the supplied responses has a falsy (empty) body —
an empty page is the only exhaustion signal. -/
theorem claim_C7_exhaustion (repo : String) (isOff : Bool) (st ist : RepoState) (now : String)
    (cpages : List (PageResp RawCommit)) (ipages : List (PageResp RawIssue))
    (seenC seenI : List String) :
    ((fetch_commits repo isOff st now cpages seenC).2.2.1 =
      if (fetch_commits repo isOff st now cpages seenC).2.2.2 = FeedStop.emptyPage
      then { st with cPage := some 1, cSince := some now } else st) ∧
    ((fetch_commits repo isOff st now cpages seenC).2.2.2 = FeedStop.emptyPage →
      ∃ p ∈ cpages, emptyBody p = true) ∧
    ((fetch_items repo isOff ist now ipages seenI).2.2.1 =
      if (fetch_items repo isOff ist now ipages seenI).2.2.2 = FeedStop.emptyPage
      then { ist with iPage := some 1, iSince := some now } else ist) ∧
    ((fetch_items repo isOff ist now ipages seenI).2.2.2 = FeedStop.emptyPage →
      ∃ p ∈ ipages, emptyBody p = true) := by
  refine ⟨fetch_commits_cursor repo isOff st now cpages seenC, ?_,
    fetch_items_cursor repo isOff ist now ipages seenI, ?_⟩
  · intro h
    exact commitsPages_empty_mem repo isOff cpages seenC
      ((fetch_commits_stop repo isOff st now cpages seenC).symm.trans h)
  · intro h
    exact itemsPages_empty_mem repo isOff ipages seenI
      ((fetch_items_stop repo isOff ist now ipages seenI).symm.trans h)

/-- C7 witness: an immediate empty page resets the cursor and is
witnessed by an empty body among the responses. -/
theorem claim_C7_witness :
    (fetch_commits "ton/sdk" true ⟨none, none, none, none⟩ "T1" [.ok (.arr [])] []).2.2.1
        = ⟨some 1, some "T1", none, none⟩ ∧
    ∃ p ∈ [(Except.ok (Body.arr []) : PageResp RawCommit)], emptyBody p = true := by
  have h := claim_C7_exhaustion "ton/sdk" true ⟨none, none, none, none⟩
    ⟨none, none, none, none⟩ "T1" [.ok (.arr [])] [.ok (.arr [])] [] []
  refine ⟨?_, h.2.1 (by decide)⟩
  rw [h.1]
  decide

/-- C8: the output merge is a union keyed by contributor identity: any
contributor present in the prior output keeps all prior commits,
issues, and pull requests and gains exactly the records yielded for
them this run, appended in order — no list is truncated or replaced. -/
theorem claim_C8_union_merge (prev : Users) (es : List Event) (a : String) (u : User)
    (h : ulookup a prev = some u) :
    ∃ u2 : User, ulookup a (es.foldl applyEvent prev) = some u2 ∧
      u2.commits = u.commits ++ commitsFor a es ∧
      u2.issues = u.issues ++ issuesFor a es ∧
      u2.pullRequests = u.pullRequests ++ prsFor a es :=
  ⟨es.foldl (applyToUser a) u, ulookup_foldl_applyEvent a es prev u h,
    foldl_applyToUser_commits a es u, foldl_applyToUser_issues a es u,
    foldl_applyToUser_prs a es u⟩

/-- C8 witness: alice with 3 prior commits gains the 2 newly yielded
ones. -/
theorem claim_C8_witness :
    ∃ u2 : User,
      ulookup "alice"
        ([Event.commitEv "alice" ⟨"s4", "alice", "u4", "r", none, [], true⟩,
          Event.commitEv "alice" ⟨"s5", "alice", "u5", "r", none, [], true⟩].foldl applyEvent
          [("alice", ⟨some "alice", none,
              [⟨"s1", "alice", "u1", "r", none, [], true⟩,
               ⟨"s2", "alice", "u2", "r", none, [], true⟩,
               ⟨"s3", "alice", "u3", "r", none, [], true⟩], [], []⟩)]) = some u2 ∧
      u2.commits =
        [⟨"s1", "alice", "u1", "r", none, [], true⟩,
         ⟨"s2", "alice", "u2", "r", none, [], true⟩,
         ⟨"s3", "alice", "u3", "r", none, [], true⟩] ++
          commitsFor "alice"
            [Event.commitEv "alice" ⟨"s4", "alice", "u4", "r", none, [], true⟩,
             Event.commitEv "alice" ⟨"s5", "alice", "u5", "r", none, [], true⟩] ∧
      u2.issues = [] ++ issuesFor "alice"
            [Event.commitEv "alice" ⟨"s4", "alice", "u4", "r", none, [], true⟩,
             Event.commitEv "alice" ⟨"s5", "alice", "u5", "r", none, [], true⟩] ∧
      u2.pullRequests = [] ++ prsFor "alice"
            [Event.commitEv "alice" ⟨"s4", "alice", "u4", "r", none, [], true⟩,
             Event.commitEv "alice" ⟨"s5", "alice", "u5", "r", none, [], true⟩] :=
  claim_C8_union_merge
    [("alice", ⟨some "alice", none,
        [⟨"s1", "alice", "u1", "r", none, [], true⟩,
         ⟨"s2", "alice", "u2", "r", none, [], true⟩,
         ⟨"s3", "alice", "u3", "r", none, [], true⟩], [], []⟩)]
    [Event.commitEv "alice" ⟨"s4", "alice", "u4", "r", none, [], true⟩,
     Event.commitEv "alice" ⟨"s5", "alice", "u5", "r", none, [], true⟩]
    "alice"
    ⟨some "alice", none,
      [⟨"s1", "alice", "u1", "r", none, [], true⟩,
       ⟨"s2", "alice", "u2", "r", none, [], true⟩,
       ⟨"s3", "alice", "u3", "r", none, [], true⟩], [], []⟩
    (by decide)

/-- C9 counterexample: a snapshot fetched one hour ago (well inside the
7-day TTL) whose cached repository list is empty still triggers an
expansion call, where the claim says a young snapshot is reused with
zero calls. -/
theorem claim_C9_counterexample :
    (3600 : Int) ≤ ORG_TTL ∧ (orgRepos (some ⟨[], 10000⟩) 13600 ["tonorg/r1"]).2.1 = true := by
  decide

/-- C9 amended: a cached snapshot is reused verbatim with no expansion
call only when it is at most TTL old AND its repository list is
nonempty; when the snapshot is absent, older than the TTL, or has an
empty list, a fresh expansion call is made and the snapshot is
refreshed with the fetched list and the current time. -/
theorem claim_C9_amended (m : OrgMeta) (now : Int) (api : List String)
    (h1 : m.repos ≠ []) (h2 : now - m.ts ≤ ORG_TTL) :
    orgRepos (some m) now api = (m.repos, false, m) ∧
    orgRepos none now api = (api, true, ⟨api, now⟩) ∧
    (∀ m2 : OrgMeta, now - m2.ts > ORG_TTL →
        orgRepos (some m2) now api = (api, true, ⟨api, now⟩)) ∧
    (∀ m2 : OrgMeta, m2.repos = [] →
        orgRepos (some m2) now api = (api, true, ⟨api, now⟩)) := by
  refine ⟨?_, by simp [orgRepos], ?_, ?_⟩
  · obtain ⟨mr, mts⟩ := m
    have h3 : ¬ (ORG_TTL < now - mts) := not_lt.mpr h2
    simp only [ne_eq] at h1
    simp [orgRepos, h1, h3]
  · intro m2 hgt
    obtain ⟨r2, t2⟩ := m2
    simp [orgRepos, hgt]
  · intro m2 hempty
    obtain ⟨r2, t2⟩ := m2
    simp only at hempty
    simp [orgRepos, hempty]

/-- C9 amended witness: a young nonempty snapshot is reused with no
call. -/
theorem claim_C9_amended_witness :
    orgRepos (some ⟨["tonorg/r1"], 10000⟩) 13600 ["tonorg/r2"]
      = (["tonorg/r1"], false, ⟨["tonorg/r1"], 10000⟩) :=
  (claim_C9_amended ⟨["tonorg/r1"], 10000⟩ 13600 ["tonorg/r2"] (by decide) (by decide)).1

/-- C10: an issue or pull-request item whose user login is absent, null
or empty is dropped before the dedup key is even formed: nothing is
yielded for it and the seen set is unchanged — processing the item list
with it is the same as processing the list without it. -/
theorem claim_C10_login_skip (repo : String) (isOff : Bool) (it : RawIssue)
    (its : List RawIssue) (seen : List String)
    (h : it.userLogin = none ∨ it.userLogin = some "") :
    itemsPage repo isOff (it :: its) seen = itemsPage repo isOff its seen := by
  rcases h with h | h <;> simp [itemsPage, h]

/-- C10 witness: an item with no user login is skipped entirely. -/
theorem claim_C10_witness :
    itemsPage "ton/sdk" true [⟨none, some 7, some "t", none, some "open", none, false⟩] []
      = itemsPage "ton/sdk" true [] [] :=
  claim_C10_login_skip "ton/sdk" true ⟨none, some 7, some "t", none, some "open", none, false⟩
    [] [] (Or.inl rfl)

end TonLB

